import Mathlib

/-!
Shallow embedding of the Arduboy rendering core (`src/Arduboy.cpp`) and
verification of its documented behaviour.

Modelling conventions:
* `WIDTH = 128`, `HEIGHT = 64` are the compile-time screen constants of the
  target device (the source's own comment in `fillScreen` records
  `128*64 = 8192/8 = 1024` buffer bytes); `WHITE = 1`, `BLACK = 0`.
* The packed framebuffer `sBuffer` (1024 `uint8_t`s) is modelled as a total
  map from byte index to byte value; every store truncates to 8 bits,
  exactly like a store into a `uint8_t` array cell.
* C `int` / `int16_t` / `long` values are modelled as `Int`; arithmetic on
  them never overflows in the situations the theorems speak about.
  C truncating division/modulus on `int` is `Int.tdiv` / `Int.tmod`.
* `uint8_t` values (widths, masks, byte parameters) are modelled as `Nat`
  with an explicit `mod 256` (`Int.emod _ 256 |>.toNat` on conversion from a
  signed expression), reproducing C's unsigned-narrowing conversions.
* External read-only tables (`bitmap`, `font`) are modelled as total maps
  from byte offset to byte value, mirroring `pgm_read_byte`.
* `drawPixel` is compiled with `PIXEL_SAFE_MODE` (the spec's
  "bounds-checking enabled" variant, §4.1): out-of-range coordinates are
  silently ignored.
-/

set_option maxRecDepth 40000

/-- Screen width in pixels (`WIDTH`). -/
def WIDTH : Nat := 128

/-- Screen height in pixels (`HEIGHT`). -/
def HEIGHT : Nat := 64

/-- The packed framebuffer: a total map from byte index to byte value. -/
def Buf : Type := Nat → Nat

/-- The all-zero (cleared) framebuffer. -/
def zeroBuf : Buf := fun _ => 0

/-- A store into one `uint8_t` cell of the buffer: writes `v mod 256` at
index `i`, leaving every other byte unchanged. -/
def store8 (buf : Buf) (i v : Nat) : Buf :=
  fun j => if j = i then v % 256 else buf j

/-- `ArduboyBase::drawPixel` (Arduboy.cpp:267-279), with `PIXEL_SAFE_MODE`:
out-of-range coordinates return early; otherwise the byte at
`(y/8)*WIDTH + x` gets bit `y%8` set (nonzero color) or cleared (zero
color).  `~_BV(k)` on a byte is `255 ^^^ 2^k`. -/
def drawPixel (buf : Buf) (x y : Int) (color : Nat) : Buf :=
  if x < 0 ∨ x > 127 ∨ y < 0 ∨ y > 63 then buf
  else
    let idx := (y.toNat / 8) * WIDTH + x.toNat
    if color ≠ 0 then
      store8 buf idx (buf idx ||| (1 <<< (y.toNat % 8)))
    else
      store8 buf idx (buf idx &&& (255 ^^^ (1 <<< (y.toNat % 8))))

/-- `ArduboyBase::getPixel` (Arduboy.cpp:281-286). -/
def getPixel (buf : Buf) (x y : Nat) : Nat :=
  (buf ((y / 8) * WIDTH + x) &&& (1 <<< (y % 8))) >>> (y % 8)

/-- The `WHITE` arm of `drawFastHLine`'s write loop:
`while (w--) { *pBuf++ |= mask; }`. -/
def hlineOr (mask : Nat) : (base cnt : Nat) → Buf → Buf
  | _, 0, buf => buf
  | base, n+1, buf => hlineOr mask (base+1) n (store8 buf base (buf base ||| mask))

/-- The `BLACK` arm of `drawFastHLine`'s write loop (mask already
complemented): `while (w--) { *pBuf++ &= mask; }`. -/
def hlineAnd (mask : Nat) : (base cnt : Nat) → Buf → Buf
  | _, 0, buf => buf
  | base, n+1, buf => hlineAnd mask (base+1) n (store8 buf base (buf base &&& mask))

/-- `ArduboyBase::drawFastHLine` (Arduboy.cpp:479-521).  `w` is a
`uint8_t`: `w += x` and `w = WIDTH - x` are unsigned-narrowing (mod 256),
and `w <= 0` can only detect `w == 0`. -/
def drawFastHLine (buf : Buf) (x y : Int) (w : Nat) (color : Nat) : Buf :=
  if y < 0 ∨ y ≥ 64 then buf
  else
    let p : Int × Nat := if x < 0 then (0, (((w : Int) + x).emod 256).toNat) else (x, w)
    let x1 := p.1
    let w1 := p.2
    let w2 := if x1 + w1 > 128 then ((128 - x1).emod 256).toNat else w1
    if w2 = 0 then buf
    else
      let base := (y.toNat / 8) * WIDTH + x1.toNat
      let mask := 1 <<< (y.toNat % 8)
      if color = 1 then hlineOr mask base w2 buf
      else if color = 0 then hlineAnd (255 ^^^ mask) base w2 buf
      else buf

/-- `ArduboyBase::drawFastVLine` (Arduboy.cpp:472-477). -/
def drawFastVLine (buf : Buf) (x y : Int) (h : Nat) (color : Nat) : Buf :=
  let rec go (x : Int) (color : Nat) : (a : Int) → (cnt : Nat) → Buf → Buf
    | _, 0, buf => buf
    | a, n+1, buf => go x color (a+1) n (drawPixel buf x a color)
  go x color (max 0 y) ((min (y + h) 64 - max 0 y).toNat) buf

/-- One scanline of `fillTriangle`'s two edge-walking loops: computes the
two x-intercepts `ax + sa/dya` and `bx + sb/dyb` (C truncating division),
swaps them if inverted, emits one horizontal run (`b - a + 1` narrowed to
`uint8_t`), then advances the accumulators. -/
def triScan (ax bx dya dyb dxa dxb : Int) (color : Nat) :
    (sa sb y : Int) → (cnt : Nat) → Buf → Buf
  | _, _, _, 0, buf => buf
  | sa, sb, y, n+1, buf =>
    let a := ax + Int.tdiv sa dya
    let b := bx + Int.tdiv sb dyb
    let p := if a > b then (b, a) else (a, b)
    let buf := drawFastHLine buf p.1 y ((p.2 - p.1 + 1).emod 256).toNat color
    triScan ax bx dya dyb dxa dxb color (sa + dxa) (sb + dxb) (y + 1) n buf

/-- `ArduboyBase::fillTriangle` (Arduboy.cpp:603-682).  Note the source's
"sort" (lines 609-614): each `if (yi > yj)` guards ONLY the y-swap; the
following `swap(xi, xj);` statements execute unconditionally (missing
braces), exactly as transcribed here. -/
def fillTriangle (buf : Buf) (x0 y0 x1 y1 x2 y2 : Int) (color : Nat) : Buf :=
  let (y0, y1) := if y0 > y1 then (y1, y0) else (y0, y1)
  let (x0, x1) := (x1, x0)
  let (y1, y2) := if y1 > y2 then (y2, y1) else (y1, y2)
  let (x1, x2) := (x2, x1)
  let (y0, y1) := if y0 > y1 then (y1, y0) else (y0, y1)
  let (x0, x1) := (x1, x0)
  if y0 = y2 then
    -- all on the same scanline: min-to-max x, one horizontal run
    let a := x0
    let b := x0
    let (a, b) := if x1 < a then (x1, b) else if x1 > b then (a, x1) else (a, b)
    let (a, b) := if x2 < a then (x2, b) else if x2 > b then (a, x2) else (a, b)
    drawFastHLine buf a y0 ((b - a + 1).emod 256).toNat color
  else
    let dx01 := x1 - x0
    let dy01 := y1 - y0
    let dx02 := x2 - x0
    let dy02 := y2 - y0
    let dx12 := x2 - x1
    let dy12 := y2 - y1
    let last := if y1 = y2 then y1 else y1 - 1
    let cnt1 := (last - y0 + 1).toNat
    let buf := triScan x0 x0 dy01 dy02 dx01 dx02 color 0 0 y0 cnt1 buf
    let y := y0 + cnt1
    let sa := dx12 * (y - y1)
    let sb := dx02 * (y - y0)
    triScan x1 x0 dy12 dy02 dx12 dx02 color sa sb y ((y2 - y + 1).toNat) buf

/-- The per-mode byte update of `drawBitmap`: `|=` for `WHITE`,
`&= ~...` for `BLACK` (`~v` on a byte is `255 ^^^ (v % 256)`), `^=`
otherwise. -/
def bmOp (color old v : Nat) : Nat :=
  if color = 1 then old ||| v
  else if color = 0 then old &&& (255 ^^^ (v % 256))
  else old ^^^ v

/-- One column write of `ArduboyBase::drawBitmap` (the body guarded by
`(iCol + x) >= 0`, Arduboy.cpp:708-746): the aligned store into band
`bRow`, then — when `yOffset != 0` and the band below is addressable —
the spill of the high bits into band `bRow + 1`. -/
def dbWriteCol (bm : Nat → Nat) (x : Int) (w a : Nat) (bRow : Int)
    (yOff color iCol : Nat) (buf : Buf) : Buf :=
  let src := bm (a * w + iCol)
  let buf1 :=
    if 0 ≤ bRow then
      let i := (bRow * 128 + x + iCol).toNat
      store8 buf i (bmOp color (buf i) (src <<< yOff))
    else buf
  if yOff ≠ 0 ∧ bRow < 7 ∧ -2 < bRow then
    let i := ((bRow + 1) * 128 + x + iCol).toNat
    store8 buf1 i (bmOp color (buf1 i) (src >>> (8 - yOff)))
  else buf1

/-- The inner `iCol` loop of `drawBitmap` (Arduboy.cpp:705-747), with its
`break` on `(iCol + x) > WIDTH-1`. -/
def dbColLoop (bm : Nat → Nat) (x : Int) (w a : Nat) (bRow : Int)
    (yOff color : Nat) : (iCol cnt : Nat) → Buf → Buf
  | _, 0, buf => buf
  | iCol, n+1, buf =>
    if (iCol : Int) + x > 127 then buf
    else
      let buf := if 0 ≤ (iCol : Int) + x then dbWriteCol bm x w a bRow yOff color iCol buf else buf
      dbColLoop bm x w a bRow yOff color (iCol+1) n buf

/-- The outer `a` (source band row) loop of `drawBitmap`
(Arduboy.cpp:700-749), with its `break` on `bRow > HEIGHT/8 - 1` and the
`bRow > -2` guard around the column loop. -/
def dbRowLoop (bm : Nat → Nat) (x : Int) (w : Nat) (sRow : Int)
    (yOff color : Nat) : (a cnt : Nat) → Buf → Buf
  | _, 0, buf => buf
  | a, n+1, buf =>
    if sRow + a > 7 then buf
    else
      let buf := if -2 < sRow + a then dbColLoop bm x w a (sRow + a) yOff color 0 w buf else buf
      dbRowLoop bm x w sRow yOff color (a+1) n buf

/-- `ArduboyBase::drawBitmap` (Arduboy.cpp:684-750): offscreen-reject
test, sign-adjusted vertical offset (`yOffset = abs(y) % 8`, with
`sRow--; yOffset = 8 - yOffset` when `y < 0`; `y / 8` truncates toward
zero), `rows = ceil(h/8)`, then the band-row loop. -/
def drawBitmap (buf : Buf) (x y : Int) (bm : Nat → Nat) (w h : Nat)
    (color : Nat) : Buf :=
  if x + w < 0 ∨ x > 127 ∨ y + h < 0 ∨ y > 63 then buf
  else
    let yOff0 := y.natAbs % 8
    let sRow0 := Int.tdiv y 8
    let sRow := if y < 0 then sRow0 - 1 else sRow0
    let yOff := if y < 0 then 8 - yOff0 else yOff0
    let rows := h / 8 + if h % 8 ≠ 0 then 1 else 0
    dbRowLoop bm x w sRow yOff color 0 rows buf

/-- The inner `xi` loop of `drawSlowXYBitmap` (Arduboy.cpp:763-767): one
row of the row-major MSB-first bitmap, drawn through `drawPixel`. -/
def slowXLoop (bm : Nat → Nat) (byteWidth : Nat) (x y : Int) (yi : Nat)
    (color : Nat) : (xi cnt : Nat) → Buf → Buf
  | _, 0, buf => buf
  | xi, n+1, buf =>
    let buf := if bm (yi * byteWidth + xi / 8) &&& (128 >>> (xi % 8)) ≠ 0 then
        drawPixel buf (x + xi) (y + yi) color
      else buf
    slowXLoop bm byteWidth x y yi color (xi+1) n buf

/-- The outer `yi` loop of `drawSlowXYBitmap` (Arduboy.cpp:761-768). -/
def slowYLoop (bm : Nat → Nat) (byteWidth w : Nat) (x y : Int)
    (color : Nat) : (yi cnt : Nat) → Buf → Buf
  | _, 0, buf => buf
  | yi, n+1, buf =>
    slowYLoop bm byteWidth w x y color (yi+1) n (slowXLoop bm byteWidth x y yi color 0 w buf)

/-- `ArduboyBase::drawSlowXYBitmap` (Arduboy.cpp:753-769). -/
def drawSlowXYBitmap (buf : Buf) (x y : Int) (bm : Nat → Nat) (w h : Nat)
    (color : Nat) : Buf :=
  if x + w < 0 ∨ x > 127 ∨ y + h < 0 ∨ y > 63 then buf
  else slowYLoop bm ((w + 7) / 8) w x y color 0 h buf

/-- The innermost `b` loop of `drawChar`'s scaled-cell fill
(Arduboy.cpp:799-800): `size` pixels down from `(cx + a, cy)`. -/
def cellLoopB (dc : Nat) (cx cy : Int) (a : Nat) : (b cnt : Nat) → Buf → Buf
  | _, 0, buf => buf
  | b, n+1, buf => cellLoopB dc cx cy a (b+1) n (drawPixel buf (cx + a) (cy + b) dc)

/-- The `a` loop of `drawChar`'s scaled-cell fill (Arduboy.cpp:797-801). -/
def cellLoopA (dc : Nat) (cx cy : Int) (size : Nat) : (a cnt : Nat) → Buf → Buf
  | _, 0, buf => buf
  | a, n+1, buf => cellLoopA dc cx cy size (a+1) n (cellLoopB dc cx cy a 0 size buf)

/-- The `j` (glyph row) loop of `drawChar` (Arduboy.cpp:791-804): picks
`color` or `bg` from the current line bit, fills the `size × size` cell
only when `draw_color || draw_background`, then shifts the line. -/
def charLoopJ (x y : Int) (i color bg size : Nat) (drawBg : Bool) :
    (line j cnt : Nat) → Buf → Buf
  | _, _, 0, buf => buf
  | line, j, n+1, buf =>
    let dc := if line &&& 1 ≠ 0 then color else bg
    let buf := if dc ≠ 0 ∨ drawBg = true then
        cellLoopA dc (x + (i : Int) * size) (y + (j : Int) * size) size 0 size buf
      else buf
    charLoopJ x y i color bg size drawBg (line >>> 1) (j+1) n buf

/-- The `i` (glyph column) loop of `drawChar` (Arduboy.cpp:783-805):
columns 0-4 come from the font table, column 5 is the blank spacing
column (`line = 0x0`). -/
def charLoopI (font : Nat → Nat) (x y : Int) (c color bg size : Nat)
    (drawBg : Bool) : (i cnt : Nat) → Buf → Buf
  | _, 0, buf => buf
  | i, n+1, buf =>
    let line := if i = 5 then 0 else font (5 * c + i)
    charLoopI font x y c color bg size drawBg (i+1) n
      (charLoopJ x y i color bg size drawBg line 0 8 buf)

/-- `ArduboyBase::drawChar` (Arduboy.cpp:772-806).  `font` is the external
glyph table of §6 of the spec (5 bytes per character code, band
encoding), modelled as a byte map. -/
def drawChar (font : Nat → Nat) (buf : Buf) (x y : Int)
    (c color bg size : Nat) : Buf :=
  let drawBg := bg != color
  if x ≥ 128 ∨ y ≥ 64 ∨ x + 5 * size - 1 < 0 ∨ y + 8 * size - 1 < 0 then buf
  else charLoopI font x y c color bg size drawBg 0 6 buf

/-- The text-cursor state of the `Arduboy` subclass (Arduboy.cpp:840-848)
together with the framebuffer it writes into.  Modelled from the spec for
the field types (§3, "TextCursor state": integer position, color, scale,
wrap flag; the field declarations live in the repository's header, which
is not part of the sources). -/
structure TextState where
  buf : Buf
  cursor_x : Int
  cursor_y : Int
  textColor : Nat
  textBackground : Nat
  textSize : Nat
  textWrap : Bool

/-- `Arduboy::write` (Arduboy.cpp:850-869).  `'\n' = 10`, `'\r' = 13`.
The source implements the wrap by recursively calling `write('\n')`; that
call's effect (the `c == '\n'` branch on the advanced state) is inlined
here. -/
def write (font : Nat → Nat) (s : TextState) (c : Nat) : TextState :=
  if c = 10 then
    { s with cursor_y := s.cursor_y + (s.textSize : Int) * 8, cursor_x := 0 }
  else if c = 13 then s
  else
    let s' := { s with
      buf := drawChar font s.buf s.cursor_x s.cursor_y c s.textColor s.textBackground s.textSize,
      cursor_x := s.cursor_x + (s.textSize : Int) * 6 }
    if s'.textWrap = true ∧ s'.cursor_x > 128 - (s'.textSize : Int) * 6 then
      { s' with cursor_y := s'.cursor_y + (s'.textSize : Int) * 8, cursor_x := 0 }
    else s'

/-- The frame-scheduler state of `ArduboyBase`.  Modelled from the spec
for the field types (§3, "FrameScheduler state": wall-clock times and an
integer frame duration; the field declarations live in the repository's
header, which is not part of the sources). -/
structure SchedState where
  frameRate : Nat
  eachFrameMillis : Nat
  frameCount : Nat
  lastFrameStart : Int
  nextFrameStart : Int
  lastFrameDurationMs : Int
  post_render : Bool

/-- `ArduboyBase::setFrameRate` (Arduboy.cpp:125-129). -/
def setFrameRate (s : SchedState) (rate : Nat) : SchedState :=
  { s with frameRate := rate, eachFrameMillis := 1000 / rate }

/-- The `ArduboyBase` constructor's frame-management initialisation
(Arduboy.cpp:13-22): default rate 60, zero frame count, first start point
0, no pending post-render.  `lastFrameStart` is not assigned by the
constructor; the global instance is zero-initialised. -/
def schedInit : SchedState :=
  setFrameRate
    { frameRate := 0, eachFrameMillis := 0, frameCount := 0, lastFrameStart := 0,
      nextFrameStart := 0, lastFrameDurationMs := 0, post_render := false } 60

/-- `ArduboyBase::newFrame` (Arduboy.cpp:136-182): post-render
bookkeeping, the not-yet-due early return, then
`nextFrameStart = lastFrameStart + eachFrameMillis` clamped up to `now`,
`lastFrameStart = now`.  Returns the updated state and the `bool`
result. -/
def newFrame (s : SchedState) (now : Int) : SchedState × Bool :=
  let s := if s.post_render then
      { s with lastFrameDurationMs := now - s.lastFrameStart,
               frameCount := s.frameCount + 1, post_render := false }
    else s
  if now < s.nextFrameStart then (s, false)
  else
    let nfs := s.lastFrameStart + (s.eachFrameMillis : Int)
    let nfs := if nfs < now then now else nfs
    ({ s with nextFrameStart := nfs, lastFrameStart := now, post_render := true }, true)

/-- Modelled from the spec: the stable 3-element sort of the triangle's
vertices by ascending y, keeping each x paired with its y ("Vertices are
first sorted by y ascending (stable 3-element sort)", §4.2).  This is the
sorting network of Arduboy.cpp:609-614 with each x-swap tied to its
y-swap, i.e. what the claim says `fillTriangle` behaves like. -/
def sortVerts3 (v0 v1 v2 : Int × Int) : (Int × Int) × (Int × Int) × (Int × Int) :=
  let (v0, v1) := if v0.2 > v1.2 then (v1, v0) else (v0, v1)
  let (v1, v2) := if v1.2 > v2.2 then (v2, v1) else (v1, v2)
  let (v0, v1) := if v0.2 > v1.2 then (v1, v0) else (v0, v1)
  (v0, v1, v2)

/-! ## Generic byte/bit lemmas used by the pixel-level proofs -/

/-- Bits of a byte-truncated value: only the low 8 bits survive. -/
theorem testBit_mod256 (v i : Nat) : (v % 256).testBit i = (decide (i < 8) && v.testBit i) := by
  have h : (256 : Nat) = 2 ^ 8 := by norm_num
  rw [h, Nat.testBit_mod_two_pow]

/-- Extracting bit `k` by mask-and-shift yields the `testBit`. -/
theorem and_shift_testBit (v k : Nat) : (v &&& (1 <<< k)) >>> k = ((v.testBit k).toNat) := by
  rw [Nat.one_shiftLeft, Nat.and_two_pow, Nat.shiftRight_eq_div_pow,
      Nat.mul_div_cancel _ (Nat.pos_pow_of_pos k (by norm_num))]

/-- `getPixel` reads exactly bit `y%8` of byte `(y/8)*WIDTH + x`. -/
theorem getPixel_testBit (buf : Buf) (x y : Nat) :
    getPixel buf x y = ((buf ((y / 8) * WIDTH + x)).testBit (y % 8)).toNat := by
  rw [getPixel, and_shift_testBit]

/-- Reading back the byte just stored. -/
theorem store8_same (buf : Buf) (i v : Nat) : (store8 buf i v) i = v % 256 := if_pos rfl

/-- A `store8` leaves every other byte as it was. -/
theorem store8_other (buf : Buf) (i v j : Nat) (h : j ≠ i) : (store8 buf i v) j = buf j :=
  if_neg h

/-- The all-ones byte has exactly bits 0-7 set. -/
theorem testBit_255 (i : Nat) : (255 : Nat).testBit i = decide (i < 8) := by
  have h : (255 : Nat) = 2 ^ 8 - 1 := by norm_num
  rw [h, Nat.testBit_two_pow_sub_one]

/-- The single-bit mask `1 <<< k` has exactly bit `k` set. -/
theorem testBit_one_shift (k j : Nat) : ((1 : Nat) <<< k).testBit j = decide (k = j) := by
  rw [Nat.one_shiftLeft]
  by_cases h : k = j
  · subst h; simp [Nat.testBit_two_pow_self]
  · simp [h, Nat.testBit_two_pow_of_ne h]

/-- Re-truncating after OR-ing a value into a truncated byte changes nothing. -/
theorem mod256_or_idem (b m : Nat) : ((b ||| m) % 256 ||| m) % 256 = (b ||| m) % 256 := by
  apply Nat.eq_of_testBit_eq
  intro i
  by_cases hi : i < 8
  · cases hb : b.testBit i <;> cases hm : m.testBit i <;>
      simp [testBit_mod256, Nat.testBit_or, hi, hb, hm]
  · simp [testBit_mod256, hi]

/-- Re-truncating after AND-masking a truncated byte changes nothing. -/
theorem mod256_and_idem (b m : Nat) : ((b &&& m) % 256 &&& m) % 256 = (b &&& m) % 256 := by
  apply Nat.eq_of_testBit_eq
  intro i
  by_cases hi : i < 8
  · cases hb : b.testBit i <;> cases hm : m.testBit i <;>
      simp [testBit_mod256, Nat.testBit_and, hi, hb, hm]
  · simp [testBit_mod256, hi]

/-! ## C1 — drawPixel / getPixel round trip, idempotence, addressing -/

/-- C1: for every in-range coordinate (x, y), `drawPixel` with ON then
`getPixel` returns ON (1) and `drawPixel` with OFF then `getPixel`
returns OFF (0); repeating the same `drawPixel` call leaves the buffer
unchanged; and the write touches only byte `(y/8)*WIDTH + x` and, within
that byte, only bit `y%8`. -/
theorem C1_pixel_roundtrip (buf : Buf) (x y : Int)
    (hx0 : 0 ≤ x) (hx1 : x ≤ 127) (hy0 : 0 ≤ y) (hy1 : y ≤ 63) :
    getPixel (drawPixel buf x y 1) x.toNat y.toNat = 1 ∧
    getPixel (drawPixel buf x y 0) x.toNat y.toNat = 0 ∧
    (∀ c, drawPixel (drawPixel buf x y c) x y c = drawPixel buf x y c) ∧
    (∀ c i, i ≠ (y.toNat / 8) * WIDTH + x.toNat → drawPixel buf x y c i = buf i) ∧
    (∀ c j, j < 8 → j ≠ y.toNat % 8 →
      ((drawPixel buf x y c) ((y.toNat / 8) * WIDTH + x.toNat)).testBit j
        = (buf ((y.toNat / 8) * WIDTH + x.toNat)).testBit j) := by
  have hg : ¬(x < 0 ∨ x > 127 ∨ y < 0 ∨ y > 63) := by omega
  have hk : y.toNat % 8 < 8 := Nat.mod_lt _ (by norm_num)
  refine ⟨?_, ?_, ?_, ?_, ?_⟩
  · rw [drawPixel, if_neg hg, if_pos (by norm_num : (1 : Nat) ≠ 0), getPixel_testBit,
      store8_same, testBit_mod256]
    simp [Nat.testBit_or, testBit_one_shift, hk]
  · rw [drawPixel, if_neg hg, if_neg (by norm_num : ¬((0 : Nat) ≠ 0)), getPixel_testBit,
      store8_same, testBit_mod256]
    simp [Nat.testBit_and, Nat.testBit_xor, testBit_255, testBit_one_shift, hk]
  · intro c
    rw [drawPixel, drawPixel, if_neg hg, if_neg hg]
    by_cases hc : c ≠ 0
    · rw [if_pos hc, if_pos hc]
      funext j
      by_cases hj : j = (y.toNat / 8) * WIDTH + x.toNat
      · rw [hj, store8_same, store8_same]
        exact mod256_or_idem _ _
      · rw [store8_other _ _ _ _ hj, store8_other _ _ _ _ hj]
    · rw [if_neg hc, if_neg hc]
      funext j
      by_cases hj : j = (y.toNat / 8) * WIDTH + x.toNat
      · rw [hj, store8_same, store8_same]
        exact mod256_and_idem _ _
      · rw [store8_other _ _ _ _ hj, store8_other _ _ _ _ hj]
  · intro c i hi
    rw [drawPixel, if_neg hg]
    by_cases hc : c ≠ 0
    · rw [if_pos hc]; exact store8_other _ _ _ _ hi
    · rw [if_neg hc]; exact store8_other _ _ _ _ hi
  · intro c j hj8 hjk
    have hne : y.toNat % 8 ≠ j := Ne.symm hjk
    rw [drawPixel, if_neg hg]
    by_cases hc : c ≠ 0
    · rw [if_pos hc, store8_same, testBit_mod256, Nat.testBit_or, testBit_one_shift]
      simp [hj8, hne]
    · rw [if_neg hc, store8_same, testBit_mod256, Nat.testBit_and, Nat.testBit_xor,
        testBit_255, testBit_one_shift]
      simp [hj8, hne]

/-- Witness for C1 at the concrete coordinate (5, 13) on a cleared buffer. -/
theorem C1_pixel_roundtrip_witness :
    getPixel (drawPixel zeroBuf 5 13 1) 5 13 = 1 ∧
    getPixel (drawPixel zeroBuf 5 13 0) 5 13 = 0 :=
  ⟨(C1_pixel_roundtrip zeroBuf 5 13 (by decide) (by decide) (by decide) (by decide)).1,
   (C1_pixel_roundtrip zeroBuf 5 13 (by decide) (by decide) (by decide) (by decide)).2.1⟩

/-! ## C2 — horizontal-run clipping -/

/-- C2 (code bug): the claim says a run with `x < 0` and `length ≤ -x`
writes no pixel at all, but `w` is a `uint8_t`, so `w += x` wraps: for
`x = -10, w = 5, y = 0` the run width becomes `251`, is clamped to the
full row width 128, and the whole of row 0 is painted — byte 100 (pixel
column 100) of the cleared buffer becomes 1 (bit 0 set).  The source's
own " if our width is now negative, punt" check (`w <= 0` on an unsigned
`w`) can never fire. -/
theorem C2_hline_unsigned_wrap_bug :
    (drawFastHLine zeroBuf (-10) 0 5 1) 100 = 1 ∧ zeroBuf 100 = 0 := by
  constructor
  · rfl
  · rfl

/-! ## C3 — frame scheduler -/

/-- C3 (code bug): starting from the constructor state with rate 50
(`eachFrameMillis = 20`), calling `newFrame` at `now = 0, 20, 21`:
all three calls accept a frame.  The second call is exactly on schedule
(`now = nextFrameStart = 20`, no overrun), yet `nextFrameStart` stays 20
instead of advancing by `1000/R = 20` — `newFrame` computes it from the
stale `lastFrameStart` of the *previous* frame — and consequently the
third call, only 1 ms later, is accepted as well (a super-fast frame the
source's own comment says it prevents). -/
theorem C3_scheduler_stale_schedule_bug :
    (newFrame (setFrameRate schedInit 50) 0).2 = true ∧
    (newFrame (setFrameRate schedInit 50) 0).1.nextFrameStart = 20 ∧
    (newFrame (newFrame (setFrameRate schedInit 50) 0).1 20).2 = true ∧
    (newFrame (newFrame (setFrameRate schedInit 50) 0).1 20).1.nextFrameStart = 20 ∧
    (newFrame (newFrame (newFrame (setFrameRate schedInit 50) 0).1 20).1 21).2 = true := by
  refine ⟨rfl, rfl, rfl, rfl, rfl⟩

/-! ## C4 — fillTriangle vertex sorting -/

/-- C4 (code bug): the vertices `(3,1), (0,0), (6,2)` sort (stably, by
ascending y) to `(0,0), (3,1), (6,2)`, but `fillTriangle` on the two
orderings produces different framebuffers — byte 0 differs (2 vs 4) —
because the x-swaps of the source's sorting network run unconditionally
(missing braces), decoupling each x from its y. -/
theorem C4_fillTriangle_unpaired_swap_bug :
    sortVerts3 (3, 1) (0, 0) (6, 2) = ((0, 0), (3, 1), (6, 2)) ∧
    (fillTriangle zeroBuf 3 1 0 0 6 2 1) 0 = 2 ∧
    (fillTriangle zeroBuf 0 0 3 1 6 2 1) 0 = 4 := by
  refine ⟨rfl, rfl, rfl⟩

/-! ## C5 — degenerate (all-same-y) filled triangle -/

/-- C5 (code bug): for the all-on-row-5 triangle with vertices
`(-20,5), (-15,5), (-18,5)` the claim says the clipped run
`[max(0,-20), min(-14,128))` is empty, so no pixel changes; but the
degenerate-case `drawFastHLine(-20, 5, 6)` hits the `uint8_t` wrap of C2
and paints the whole of row 5: byte 100 of the cleared buffer becomes 32
(bit 5 set). -/
theorem C5_degenerate_triangle_clip_bug :
    (fillTriangle zeroBuf (-20) 5 (-15) 5 (-18) 5 1) 100 = 32 ∧ zeroBuf 100 = 0 := by
  constructor
  · rfl
  · rfl

/-! ## C7 — offscreen rejection of the bitmap blits -/

/-- C7 (counterexample): a 1×3 bitmap at `(0, -3)` has bounding box
`[0,1) × [-3,0)`, disjoint from the screen (`y + h ≤ 0`), yet `drawBitmap`
is not rejected (the guard tests `y + h < 0`) and writes `255 >>> 3 = 31`
into byte 0 of the cleared buffer. -/
theorem C7_offscreen_reject_counterexample :
    ((-3 : Int) + 3 ≤ 0) ∧
    (drawBitmap zeroBuf 0 (-3) (fun _ => 255) 1 3 1) 0 = 31 ∧ zeroBuf 0 = 0 := by
  refine ⟨by norm_num, rfl, rfl⟩

/-- C7 (amended): both blit entry points leave the whole framebuffer
unchanged whenever the source's rejection test holds, i.e. when
`x + w < 0`, or `x > WIDTH-1`, or `y + h < 0`, or `y > HEIGHT-1`. -/
theorem C7_offscreen_reject_amended (buf : Buf) (x y : Int) (bm : Nat → Nat)
    (w h color : Nat)
    (hrej : x + w < 0 ∨ x > 127 ∨ y + h < 0 ∨ y > 63) :
    drawBitmap buf x y bm w h color = buf ∧
    drawSlowXYBitmap buf x y bm w h color = buf := by
  constructor
  · rw [drawBitmap, if_pos hrej]
  · rw [drawSlowXYBitmap, if_pos hrej]

/-- Witness for the amended C7 at `x = 200` (entirely right of the
screen). -/
theorem C7_offscreen_reject_amended_witness :
    drawBitmap zeroBuf 200 0 (fun _ => 255) 4 4 1 = zeroBuf ∧
    drawSlowXYBitmap zeroBuf 200 0 (fun _ => 255) 4 4 1 = zeroBuf :=
  C7_offscreen_reject_amended zeroBuf 200 0 (fun _ => 255) 4 4 1 (by norm_num)

/-! ## C8 — drawChar background transparency -/

/-- C8 (counterexample): with foreground = background = WHITE (1) and the
all-zero font (so the glyph bit of cell `(0,0)` is 0, a background cell),
`drawChar` at the origin writes that background cell: pixel `(0,0)` goes
from OFF to ON.  The `draw_color || draw_background` test passes because
`draw_color = bg = 1` is truthy, even though `draw_background` is
false. -/
theorem C8_transparent_bg_counterexample :
    (((fun _ => (0 : Nat)) (5 * 65 + 0) >>> 0) &&& 1 = 0) ∧
    getPixel zeroBuf 0 0 = 0 ∧
    getPixel (drawChar (fun _ => 0) zeroBuf 0 0 65 1 1 1) 0 0 = 1 := by
  refine ⟨rfl, rfl, rfl⟩

/-! ## C10 — carriage return is a no-op -/

/-- C10: writing `'\r'` (13) through the text cursor leaves the whole
state — framebuffer, cursor position, color, background, size, wrap —
exactly unchanged. -/
theorem C10_write_carriage_return (font : Nat → Nat) (s : TextState) :
    write font s 13 = s := rfl

/-- With foreground = background = BLACK, `draw_color` is 0 for every
glyph bit and `draw_background` is false, so one whole glyph row writes
nothing. -/
theorem charLoopJ_black_skip (x y : Int) (i size : Nat) :
    ∀ cnt line j buf, charLoopJ x y i 0 0 size false line j cnt buf = buf := by
  intro cnt
  induction cnt with
  | zero => intro line j buf; rfl
  | succ n ih =>
    intro line j buf
    rw [charLoopJ]
    simp only [ite_self]
    rw [if_neg (by simp)]
    exact ih _ _ _

/-- With foreground = background = BLACK, the whole glyph-column loop
writes nothing. -/
theorem charLoopI_black_skip (font : Nat → Nat) (x y : Int) (c size : Nat) :
    ∀ cnt i buf, charLoopI font x y c 0 0 size false i cnt buf = buf := by
  intro cnt
  induction cnt with
  | zero => intro i buf; rfl
  | succ n ih =>
    intro i buf
    rw [charLoopI, charLoopJ_black_skip]
    exact ih _ _

/-- C8 (amended): background cells are only guaranteed untouched when the
common color is BLACK — with foreground = background = 0 `drawChar`
leaves the entire framebuffer unchanged (every cell, background cells
included); when the common color is nonzero, `draw_color || draw_background`
is truthy and background cells are written (see the counterexample). -/
theorem C8_bg_skip_amended (font : Nat → Nat) (buf : Buf) (x y : Int)
    (c size : Nat) : drawChar font buf x y c 0 0 size = buf := by
  rw [drawChar]
  split
  · rfl
  · exact charLoopI_black_skip font x y c size 6 0 buf

/-! ## C9 — cursor advance and wrap in write -/

/-- C9: for a printable character (not `'\n'`, not `'\r'`) with wrap
enabled, `write` places the glyph at the old cursor, advances x by
`6*size`, and — exactly when the advanced x exceeds `WIDTH - 6*size` —
immediately applies a newline, ending at `x = 0` with y advanced by
`8*size`; color, background, size and wrap flag are untouched. -/
theorem C9_write_wrap_advance (font : Nat → Nat) (s : TextState) (c : Nat)
    (hwrap : s.textWrap = true) (hn : c ≠ 10) (hr : c ≠ 13) :
    (write font s c).buf
        = drawChar font s.buf s.cursor_x s.cursor_y c s.textColor s.textBackground s.textSize ∧
    (write font s c).textColor = s.textColor ∧
    (write font s c).textBackground = s.textBackground ∧
    (write font s c).textSize = s.textSize ∧
    (write font s c).textWrap = s.textWrap ∧
    (s.cursor_x + (s.textSize : Int) * 6 > 128 - (s.textSize : Int) * 6 →
      (write font s c).cursor_x = 0 ∧
      (write font s c).cursor_y = s.cursor_y + (s.textSize : Int) * 8) ∧
    (¬(s.cursor_x + (s.textSize : Int) * 6 > 128 - (s.textSize : Int) * 6) →
      (write font s c).cursor_x = s.cursor_x + (s.textSize : Int) * 6 ∧
      (write font s c).cursor_y = s.cursor_y) := by
  simp only [write, if_neg hn, if_neg hr]
  by_cases hov : s.cursor_x + (s.textSize : Int) * 6 > 128 - (s.textSize : Int) * 6
  · rw [if_pos ⟨hwrap, hov⟩]
    refine ⟨rfl, rfl, rfl, rfl, hwrap.symm ▸ rfl, fun _ => ⟨rfl, rfl⟩, fun hq => absurd hov hq⟩
  · rw [if_neg (fun hconj => hov hconj.2)]
    refine ⟨rfl, rfl, rfl, rfl, rfl, fun hq => absurd hq hov, fun _ => ⟨rfl, rfl⟩⟩

/-- The concrete wrap state for the C9 witness: cursor at x = 120,
scale 1, wrap on. -/
def c9State : TextState :=
  { buf := zeroBuf, cursor_x := 120, cursor_y := 0, textColor := 1,
    textBackground := 0, textSize := 1, textWrap := true }

/-- Witness for C9: writing `'A'` (65) at x = 120 with scale 1 advances
to 126 > 122, so the cursor wraps to the start of the next line. -/
theorem C9_write_wrap_advance_witness :
    (write (fun _ => 0) c9State 65).cursor_x = 0 ∧
    (write (fun _ => 0) c9State 65).cursor_y = 8 := by
  have h := (C9_write_wrap_advance (fun _ => 0) c9State 65 rfl (by decide)
    (by decide)).2.2.2.2.2.1 (by decide)
  exact ⟨h.1, by rw [h.2]; decide⟩

/-! ## C6 — band-aligned bitmap blit: pointwise characterisation -/

/-- In WHITE mode the bitmap byte update is an OR. -/
theorem bmOp_white (old v : Nat) : bmOp 1 old v = old ||| v := rfl

/-- The high-bit spill of a byte is below 8. -/
theorem shr5_lt8 (v : Nat) (hv : v < 256) : v >>> 5 < 8 := by
  rw [Nat.shiftRight_eq_div_pow]
  omega

/-- A column write of `drawBitmap` leaves untouched every byte other than
its (at most two) target bytes. -/
theorem dbWriteCol_other (bm : Nat → Nat) (x : Int) (w a : Nat) (bRow : Int)
    (yOff color iCol : Nat) (buf : Buf) (j : Nat)
    (h1 : 0 ≤ bRow → j ≠ (bRow * 128 + x + iCol).toNat)
    (h2 : (yOff ≠ 0 ∧ bRow < 7 ∧ -2 < bRow) → j ≠ ((bRow + 1) * 128 + x + iCol).toNat) :
    dbWriteCol bm x w a bRow yOff color iCol buf j = buf j := by
  simp only [dbWriteCol]
  by_cases hc2 : yOff ≠ 0 ∧ bRow < 7 ∧ -2 < bRow
  · rw [if_pos hc2, store8_other _ _ _ _ (h2 hc2)]
    by_cases hb : 0 ≤ bRow
    · rw [if_pos hb, store8_other _ _ _ _ (h1 hb)]
    · rw [if_neg hb]
  · rw [if_neg hc2]
    by_cases hb : 0 ≤ bRow
    · rw [if_pos hb, store8_other _ _ _ _ (h1 hb)]
    · rw [if_neg hb]

/-- Value of the aligned (band `bRow`) byte after one WHITE column
write. -/
theorem dbWriteCol_band1 (bm : Nat → Nat) (x : Int) (w a : Nat) (bRow : Int)
    (yOff iCol : Nat) (buf : Buf) (hb : 0 ≤ bRow) (hxi : 0 ≤ x + iCol) :
    dbWriteCol bm x w a bRow yOff 1 iCol buf ((bRow * 128 + x + iCol).toNat)
      = (buf ((bRow * 128 + x + iCol).toNat) ||| (bm (a * w + iCol) <<< yOff)) % 256 := by
  have hne : (bRow * 128 + x + iCol).toNat ≠ ((bRow + 1) * 128 + x + iCol).toNat := by
    omega
  simp only [dbWriteCol, bmOp_white, if_pos hb]
  by_cases hc2 : yOff ≠ 0 ∧ bRow < 7 ∧ -2 < bRow
  · rw [if_pos hc2, store8_other _ _ _ _ hne, store8_same]
  · rw [if_neg hc2, store8_same]

/-- Value of the band-below (band `bRow + 1`) byte after one WHITE column
write (when the spill is enabled). -/
theorem dbWriteCol_band2 (bm : Nat → Nat) (x : Int) (w a : Nat) (bRow : Int)
    (yOff iCol : Nat) (buf : Buf)
    (hc2 : yOff ≠ 0 ∧ bRow < 7 ∧ -2 < bRow) (hxi : 0 ≤ x + iCol) :
    dbWriteCol bm x w a bRow yOff 1 iCol buf (((bRow + 1) * 128 + x + iCol).toNat)
      = (buf (((bRow + 1) * 128 + x + iCol).toNat) ||| (bm (a * w + iCol) >>> (8 - yOff))) % 256 := by
  simp only [dbWriteCol, bmOp_white]
  by_cases hb : 0 ≤ bRow
  · have hne : ((bRow + 1) * 128 + x + iCol).toNat ≠ (bRow * 128 + x + iCol).toNat := by
      omega
    rw [if_pos hb, if_pos hc2, store8_same, store8_other _ _ _ _ hne]
  · rw [if_neg hb, if_pos hc2, store8_same]

/-- The column loop leaves untouched every byte that is not a target of
one of its (in-range) column writes. -/
theorem dbColLoop_other (bm : Nat → Nat) (x : Int) (w a : Nat) (bRow : Int)
    (yOff color : Nat) (j : Nat) :
    ∀ cnt iCol buf,
      (∀ t : Nat, iCol ≤ t → t < iCol + cnt → 0 ≤ x + t → x + t ≤ 127 →
        (0 ≤ bRow → j ≠ (bRow * 128 + x + t).toNat) ∧
        ((yOff ≠ 0 ∧ bRow < 7 ∧ -2 < bRow) → j ≠ ((bRow + 1) * 128 + x + t).toNat)) →
      dbColLoop bm x w a bRow yOff color iCol cnt buf j = buf j := by
  intro cnt
  induction cnt with
  | zero => intro iCol buf h; rfl
  | succ n ih =>
    intro iCol buf h
    rw [dbColLoop]
    by_cases hbr : (iCol : Int) + x > 127
    · rw [if_pos hbr]
    · rw [if_neg hbr]
      by_cases hge : 0 ≤ (iCol : Int) + x
      · rw [if_pos hge]
        have hstep := h iCol le_rfl (by omega) (by omega) (by omega)
        calc dbColLoop bm x w a bRow yOff color (iCol + 1) n
                (dbWriteCol bm x w a bRow yOff color iCol buf) j
            = dbWriteCol bm x w a bRow yOff color iCol buf j :=
              ih _ _ (fun t ht1 ht2 ht3 ht4 => h t (by omega) (by omega) ht3 ht4)
          _ = buf j := dbWriteCol_other bm x w a bRow yOff color iCol buf j
              hstep.1 hstep.2
      · rw [if_neg hge]
        exact ih _ _ (fun t ht1 ht2 ht3 ht4 => h t (by omega) (by omega) ht3 ht4)

/-- Value of the aligned byte of column `tq` after the whole WHITE column
loop: the byte accumulates exactly its own column's source byte, shifted
by the vertical offset. -/
theorem dbColLoop_band1_val (bm : Nat → Nat) (x : Int) (w a : Nat) (bRow : Int)
    (yOff tq : Nat) (hb : 0 ≤ bRow) (hq0 : 0 ≤ x + tq) (hq1 : x + tq ≤ 127) :
    ∀ cnt iCol buf, iCol ≤ tq → tq < iCol + cnt →
      dbColLoop bm x w a bRow yOff 1 iCol cnt buf ((bRow * 128 + x + tq).toNat)
        = (buf ((bRow * 128 + x + tq).toNat) ||| (bm (a * w + tq) <<< yOff)) % 256 := by
  intro cnt
  induction cnt with
  | zero => intro iCol buf h1 h2; omega
  | succ n ih =>
    intro iCol buf h1 h2
    rw [dbColLoop, if_neg (by omega : ¬((iCol : Int) + x > 127))]
    by_cases heq : iCol = tq
    · subst heq
      rw [if_pos (by omega : 0 ≤ (iCol : Int) + x)]
      rw [dbColLoop_other bm x w a bRow yOff 1 _ n (iCol + 1) _
        (fun t ht1 ht2 ht3 ht4 => ⟨fun _ => by omega, fun hcc => by omega⟩)]
      exact dbWriteCol_band1 bm x w a bRow yOff iCol buf hb hq0
    · have hlt : iCol < tq := by omega
      by_cases hge : 0 ≤ (iCol : Int) + x
      · rw [if_pos hge]
        rw [ih (iCol + 1) _ (by omega) (by omega)]
        rw [dbWriteCol_other bm x w a bRow yOff 1 iCol buf _
          (fun _ => by omega) (fun hcc => by omega)]
      · rw [if_neg hge]
        exact ih _ _ (by omega) (by omega)

/-- Value of the band-below byte of column `tq` after the whole WHITE
column loop (spill enabled): the byte accumulates exactly its own
column's high bits. -/
theorem dbColLoop_band2_val (bm : Nat → Nat) (x : Int) (w a : Nat) (bRow : Int)
    (yOff tq : Nat) (hc2 : yOff ≠ 0 ∧ bRow < 7 ∧ -2 < bRow)
    (hq0 : 0 ≤ x + tq) (hq1 : x + tq ≤ 127) :
    ∀ cnt iCol buf, iCol ≤ tq → tq < iCol + cnt →
      dbColLoop bm x w a bRow yOff 1 iCol cnt buf (((bRow + 1) * 128 + x + tq).toNat)
        = (buf (((bRow + 1) * 128 + x + tq).toNat) ||| (bm (a * w + tq) >>> (8 - yOff))) % 256 := by
  obtain ⟨hy0, hb7, hbm2⟩ := hc2
  intro cnt
  induction cnt with
  | zero => intro iCol buf h1 h2; omega
  | succ n ih =>
    intro iCol buf h1 h2
    rw [dbColLoop, if_neg (by omega : ¬((iCol : Int) + x > 127))]
    by_cases heq : iCol = tq
    · subst heq
      rw [if_pos (by omega : 0 ≤ (iCol : Int) + x)]
      rw [dbColLoop_other bm x w a bRow yOff 1 _ n (iCol + 1) _
        (fun t ht1 ht2 ht3 ht4 => ⟨fun hb0 => by omega, fun hcc => by omega⟩)]
      exact dbWriteCol_band2 bm x w a bRow yOff iCol buf ⟨hy0, hb7, hbm2⟩ hq0
    · have hlt : iCol < tq := by omega
      by_cases hge : 0 ≤ (iCol : Int) + x
      · rw [if_pos hge]
        rw [ih (iCol + 1) _ (by omega) (by omega)]
        rw [dbWriteCol_other bm x w a bRow yOff 1 iCol buf _
          (fun hb0 => by omega) (fun hcc => by omega)]
      · rw [if_neg hge]
        exact ih _ _ (by omega) (by omega)

/-- Splitting the band-row loop at an intermediate row, as long as the
`bRow > 7` break cannot fire in the first segment. -/
theorem dbRowLoop_split (bm : Nat → Nat) (x : Int) (w : Nat) (sRow : Int)
    (yOff color : Nat) :
    ∀ r1 r2 a0 buf, (∀ a' : Nat, a0 ≤ a' → a' < a0 + r1 → ¬(sRow + a' > 7)) →
      dbRowLoop bm x w sRow yOff color a0 (r1 + r2) buf
        = dbRowLoop bm x w sRow yOff color (a0 + r1) r2
            (dbRowLoop bm x w sRow yOff color a0 r1 buf) := by
  intro r1
  induction r1 with
  | zero =>
    intro r2 a0 buf h
    rw [Nat.zero_add]
    rfl
  | succ r1 ih =>
    intro r2 a0 buf h
    have hnb : ¬(sRow + a0 > 7) := h a0 le_rfl (by omega)
    rw [Nat.succ_add, dbRowLoop, if_neg hnb, dbRowLoop, if_neg hnb]
    rw [show a0 + (r1 + 1) = (a0 + 1) + r1 by omega]
    exact ih r2 (a0 + 1) _ (fun a' h1 h2 => h a' (by omega) (by omega))

/-- The band-row loop leaves untouched every byte that is not a target of
one of its rows' column writes. -/
theorem dbRowLoop_other (bm : Nat → Nat) (x : Int) (w : Nat) (sRow : Int)
    (yOff color : Nat) (j : Nat) :
    ∀ cnt a0 buf,
      (∀ (a' t : Nat), a0 ≤ a' → a' < a0 + cnt → t < w → 0 ≤ x + t → x + t ≤ 127 →
        (0 ≤ sRow + a' → j ≠ ((sRow + a') * 128 + x + t).toNat) ∧
        ((yOff ≠ 0 ∧ sRow + a' < 7 ∧ -2 < sRow + a') →
          j ≠ ((sRow + a' + 1) * 128 + x + t).toNat)) →
      dbRowLoop bm x w sRow yOff color a0 cnt buf j = buf j := by
  intro cnt
  induction cnt with
  | zero => intro a0 buf h; rfl
  | succ n ih =>
    intro a0 buf h
    rw [dbRowLoop]
    by_cases hbr : sRow + a0 > 7
    · rw [if_pos hbr]
    · rw [if_neg hbr]
      by_cases hg : -2 < sRow + (a0 : Int)
      · rw [if_pos hg]
        calc dbRowLoop bm x w sRow yOff color (a0 + 1) n
                (dbColLoop bm x w a0 (sRow + a0) yOff color 0 w buf) j
            = dbColLoop bm x w a0 (sRow + a0) yOff color 0 w buf j :=
              ih _ _ (fun a' t h1 h2 h3 h4 h5 => h a' t (by omega) (by omega) h3 h4 h5)
          _ = buf j := dbColLoop_other bm x w a0 (sRow + a0) yOff color j w 0 buf
              (fun t ht1 ht2 ht3 ht4 => h a0 t le_rfl (by omega) (by omega) ht3 ht4)
      · rw [if_neg hg]
        exact ih _ _ (fun a' t h1 h2 h3 h4 h5 => h a' t (by omega) (by omega) h3 h4 h5)

/-- WHITE blit with vertical offset 0 onto a cleared buffer: the byte of
destination band `k + aq`, column `x + tq`, is exactly the source byte of
band-row `aq`, column `tq` (shifted by 0). -/
theorem dbRowLoop_aligned_val (bm : Nat → Nat) (x : Int) (w k aq tq rows : Nat)
    (hrows : aq < rows) (hband : k + aq ≤ 7) (htq : tq < w)
    (hq0 : 0 ≤ x + tq) (hq1 : x + tq ≤ 127) :
    dbRowLoop bm x w (k : Int) 0 1 0 rows zeroBuf ((((k : Int) + aq) * 128 + x + tq).toNat)
      = (bm (aq * w + tq) <<< 0) % 256 := by
  have hsplit : rows = aq + (1 + (rows - aq - 1)) := by omega
  rw [hsplit, dbRowLoop_split bm x w _ 0 1 aq _ 0 zeroBuf
    (fun a' h1 h2 => by omega), Nat.zero_add, Nat.add_comm 1 (rows - aq - 1),
    dbRowLoop, if_neg (by omega : ¬((k : Int) + (aq : Nat) > 7)),
    if_pos (by omega : (-2 : Int) < (k : Int) + (aq : Nat))]
  rw [dbRowLoop_other bm x w (k : Int) 0 1 _ (rows - aq - 1) (aq + 1) _
    (fun a' t h1 h2 h3 h4 h5 => ⟨fun hge => by omega, fun hcc => absurd rfl hcc.1⟩)]
  rw [dbColLoop_band1_val bm x w aq ((k : Int) + (aq : Nat)) 0 tq (by omega) hq0 hq1
    w 0 _ (by omega) (by omega)]
  rw [dbRowLoop_other bm x w (k : Int) 0 1 _ aq 0 zeroBuf
    (fun a' t h1 h2 h3 h4 h5 => ⟨fun hge => by omega, fun hcc => absurd rfl hcc.1⟩)]
  simp [zeroBuf]

/-- The empty band-row loop. -/
theorem dbRowLoop_zero (bm : Nat → Nat) (x : Int) (w : Nat) (sRow : Int)
    (yOff color a : Nat) (buf : Buf) :
    dbRowLoop bm x w sRow yOff color a 0 buf = buf := rfl

/-- With vertical offset 3, after the band rows before `aq` have run on a
cleared buffer, the byte of band `k + aq` holds only spill bits: its
value is below 8. -/
theorem dbRowLoop_off3_prefix_small (bm : Nat → Nat) (x : Int) (w k aq tq : Nat)
    (hbm : ∀ i, bm i < 256) (hband : k + aq ≤ 7) (htq : tq < w)
    (hq0 : 0 ≤ x + tq) (hq1 : x + tq ≤ 127) :
    dbRowLoop bm x w (k : Int) 3 1 0 aq zeroBuf ((((k : Int) + aq) * 128 + x + tq).toNat)
      < 8 := by
  cases aq with
  | zero =>
    rw [dbRowLoop_zero]
    simp [zeroBuf]
  | succ m =>
    rw [show m + 1 = m + 1 from rfl, dbRowLoop_split bm x w _ 3 1 m 1 0 zeroBuf
      (fun a' h1 h2 => by omega), Nat.zero_add, dbRowLoop,
      if_neg (by omega : ¬((k : Int) + (m : Nat) > 7)),
      if_pos (by omega : (-2 : Int) < (k : Int) + (m : Nat)), dbRowLoop_zero]
    have hidx : ((k : Int) + ((m + 1 : Nat) : Int)) * 128 + x + tq
        = ((k : Int) + (m : Nat) + 1) * 128 + x + tq := by push_cast; ring
    rw [hidx]
    rw [dbColLoop_band2_val bm x w m ((k : Int) + (m : Nat)) 3 tq
      ⟨by norm_num, by omega, by omega⟩ hq0 hq1 w 0 _ (by omega) (by omega)]
    rw [dbRowLoop_other bm x w (k : Int) 3 1 _ m 0 zeroBuf
      (fun a' t h1 h2 h3 h4 h5 => ⟨fun hge => by omega, fun hcc => by omega⟩)]
    simp only [zeroBuf, Nat.zero_or]
    have h8 := shr5_lt8 (bm (m * w + tq)) (hbm _)
    have := Nat.mod_le (bm (m * w + tq) >>> (8 - 3)) 256
    omega

/-- WHITE blit with vertical offset 3 onto a cleared buffer, band
`k + aq`: the byte is the source byte of band-row `aq` shifted left by 3,
OR-ed with spill bits below 8. -/
theorem dbRowLoop_off3_band1 (bm : Nat → Nat) (x : Int) (w k aq tq rows : Nat)
    (hbm : ∀ i, bm i < 256) (hrows : aq < rows) (hband : k + aq + 1 ≤ 7)
    (htq : tq < w) (hq0 : 0 ≤ x + tq) (hq1 : x + tq ≤ 127) :
    ∃ u, u < 8 ∧
      dbRowLoop bm x w (k : Int) 3 1 0 rows zeroBuf
          ((((k : Int) + aq) * 128 + x + tq).toNat)
        = (u ||| bm (aq * w + tq) <<< 3) % 256 := by
  refine ⟨dbRowLoop bm x w (k : Int) 3 1 0 aq zeroBuf
      ((((k : Int) + aq) * 128 + x + tq).toNat),
    dbRowLoop_off3_prefix_small bm x w k aq tq hbm (by omega) htq hq0 hq1, ?_⟩
  have hsplit : rows = aq + (1 + (rows - aq - 1)) := by omega
  rw [hsplit, dbRowLoop_split bm x w _ 3 1 aq _ 0 zeroBuf
    (fun a' h1 h2 => by omega), Nat.zero_add, Nat.add_comm 1 (rows - aq - 1),
    dbRowLoop, if_neg (by omega : ¬((k : Int) + (aq : Nat) > 7)),
    if_pos (by omega : (-2 : Int) < (k : Int) + (aq : Nat))]
  rw [dbRowLoop_other bm x w (k : Int) 3 1 _ (rows - aq - 1) (aq + 1) _
    (fun a' t h1 h2 h3 h4 h5 => ⟨fun hge => by omega, fun hcc => by omega⟩)]
  rw [dbColLoop_band1_val bm x w aq ((k : Int) + (aq : Nat)) 3 tq (by omega) hq0 hq1
    w 0 _ (by omega) (by omega)]

/-- WHITE blit with vertical offset 3 onto a cleared buffer, band
`k + aq + 1`: the byte is the spill `src >>> 5` of band-row `aq`,
OR-ed with the next band-row's byte shifted left by 3 (or with nothing if
there is no next band-row). -/
theorem dbRowLoop_off3_band2 (bm : Nat → Nat) (x : Int) (w k aq tq rows : Nat)
    (hbm : ∀ i, bm i < 256) (hrows : aq < rows) (hband : k + aq + 1 ≤ 7)
    (htq : tq < w) (hq0 : 0 ≤ x + tq) (hq1 : x + tq ≤ 127) :
    ∃ v2, dbRowLoop bm x w (k : Int) 3 1 0 rows zeroBuf
          ((((k : Int) + aq + 1) * 128 + x + tq).toNat)
        = (bm (aq * w + tq) >>> 5 ||| v2 <<< 3) % 256 := by
  have h8 := shr5_lt8 (bm (aq * w + tq)) (hbm _)
  obtain ⟨rest, hrest⟩ : ∃ r, rows = aq + (1 + r) := ⟨rows - aq - 1, by omega⟩
  rw [hrest, dbRowLoop_split bm x w _ 3 1 aq _ 0 zeroBuf
    (fun a' h1 h2 => by omega), Nat.zero_add, Nat.add_comm 1 rest,
    dbRowLoop, if_neg (by omega : ¬((k : Int) + (aq : Nat) > 7)),
    if_pos (by omega : (-2 : Int) < (k : Int) + (aq : Nat))]
  have hrow : dbColLoop bm x w aq ((k : Int) + (aq : Nat)) 3 1 0 w
      (dbRowLoop bm x w (k : Int) 3 1 0 aq zeroBuf)
      ((((k : Int) + aq + 1) * 128 + x + tq).toNat)
      = bm (aq * w + tq) >>> 5 := by
    rw [dbColLoop_band2_val bm x w aq ((k : Int) + (aq : Nat)) 3 tq
      ⟨by norm_num, by omega, by omega⟩ hq0 hq1 w 0 _ (by omega) (by omega)]
    rw [dbRowLoop_other bm x w (k : Int) 3 1 _ aq 0 zeroBuf
      (fun a' t h1 h2 h3 h4 h5 => ⟨fun hge => by omega, fun hcc => by omega⟩)]
    simp only [zeroBuf, Nat.zero_or]
    exact Nat.mod_eq_of_lt (by omega)
  cases rest with
  | zero =>
    refine ⟨0, ?_⟩
    rw [dbRowLoop_zero, hrow]
    have : (0 : Nat) <<< 3 = 0 := rfl
    rw [this, Nat.or_zero, Nat.mod_eq_of_lt (by omega)]
  | succ r =>
    refine ⟨bm ((aq + 1) * w + tq), ?_⟩
    rw [dbRowLoop, if_neg (by omega : ¬((k : Int) + ((aq + 1 : Nat) : Int) > 7)),
      if_pos (by omega : (-2 : Int) < (k : Int) + ((aq + 1 : Nat) : Int))]
    rw [dbRowLoop_other bm x w (k : Int) 3 1 _ r (aq + 1 + 1) _
      (fun a' t h1 h2 h3 h4 h5 => ⟨fun hge => by omega, fun hcc => by omega⟩)]
    have hidx : ((k : Int) + aq + 1) * 128 + x + tq
        = (((k : Int) + ((aq + 1 : Nat) : Int)) * 128 + x + tq) := by push_cast; ring
    rw [hidx]
    rw [dbColLoop_band1_val bm x w (aq + 1) ((k : Int) + ((aq + 1 : Nat) : Int)) 3 tq
      (by omega) (by rw [← hidx] at *; omega) (by omega) w 0 _ (by omega) (by omega)]
    rw [← hidx, hrow]

/-- Recombining the two bands of a split byte: shifting the aligned band
back right by 3 and the spill band back left by 5 and OR-ing restores the
source byte, regardless of the neighbouring rows' contributions `u`
(below bit 3) and `vn` (above bit 2 of the spill band). -/
theorem or3_recombine (u v vn : Nat) (hu : u < 8) (hv : v < 256) :
    (((u ||| v <<< 3) % 256) >>> 3) |||
      ((((v >>> 5 ||| vn <<< 3) % 256) <<< 5) % 256) = v := by
  apply Nat.eq_of_testBit_eq
  intro i
  rw [Nat.testBit_or, Nat.testBit_shiftRight, testBit_mod256, testBit_mod256,
      Nat.testBit_or, Nat.testBit_shiftLeft, Nat.testBit_shiftLeft, testBit_mod256,
      Nat.testBit_or, Nat.testBit_shiftRight, Nat.testBit_shiftLeft]
  have hu' : u.testBit (3 + i) = false := by
    apply Nat.testBit_lt_two_pow
    have hp : (2 : Nat) ^ 3 ≤ 2 ^ (3 + i) := Nat.pow_le_pow_right (by norm_num) (by omega)
    omega
  rw [hu']
  by_cases h5 : i < 5
  · have h38 : 3 + i < 8 := by omega
    have hn5 : ¬(5 ≤ i) := by omega
    simp [h38, hn5]
  · by_cases h8 : i < 8
    · have h38 : ¬(3 + i < 8) := by omega
      have h55 : 5 ≤ i := by omega
      have hi58 : i - 5 < 8 := by omega
      have h3i5 : ¬(3 ≤ i - 5) := by omega
      have h15 : 5 + (i - 5) = i := by omega
      simp [h38, h8, h55, hi58, h3i5, h15]
    · have h38 : ¬(3 + i < 8) := by omega
      have hvb : v.testBit i = false := by
        apply Nat.testBit_lt_two_pow
        have hp : (2 : Nat) ^ 8 ≤ 2 ^ i := Nat.pow_le_pow_right (by norm_num) (by omega)
        omega
      simp [h38, h8, hvb]

/-- Unfolding `drawBitmap` at a nonnegative `y = 8k + r` (`r < 8`): the
offscreen test passes, the vertical offset is `r`, and the start band is
`k`. -/
theorem drawBitmap_nonneg_unfold (buf : Buf) (k r : Nat) (x : Int) (bm : Nat → Nat)
    (w h color : Nat) (hr : r < 8)
    (hg : ¬(x + (w : Int) < 0 ∨ x > 127 ∨ ((8 * k + r : Nat) : Int) + (h : Int) < 0 ∨
        ((8 * k + r : Nat) : Int) > 63)) :
    drawBitmap buf x ((8 * k + r : Nat) : Int) bm w h color
      = dbRowLoop bm x w (k : Int) r color 0 (h / 8 + if h % 8 ≠ 0 then 1 else 0) buf := by
  have hy : ¬(((8 * k + r : Nat) : Int) < 0) := by omega
  have hna : ((8 * k + r : Nat) : Int).natAbs % 8 = r := by
    rw [Int.natAbs_ofNat]
    omega
  have htd : Int.tdiv ((8 * k + r : Nat) : Int) 8 = (k : Int) := by
    rw [show ((8 : Int)) = ((8 : Nat) : Int) from rfl, ← Int.ofNat_tdiv]
    have : (8 * k + r) / 8 = k := by omega
    rw [this]
  simp only [drawBitmap, if_neg hg, if_neg hy, hna, htd]

/-- C6: band-aligned WHITE blit onto a cleared framebuffer.  At a
band-aligned `y = 8k` every destination band byte covered by the bitmap
and inside the screen equals the corresponding source byte exactly; at
`y = 8k + 3` (vertical offset 3) each source byte is split across the two
vertically adjacent destination bands `k+a` and `k+a+1`, and
OR-recombining those two destination bytes shifted back by 3 and 5
restores the original source byte. -/
theorem C6_bitmap_blit_band_alignment (bm : Nat → Nat) (w h k a iCol : Nat) (x : Int)
    (hbm : ∀ i, bm i < 256) (hcol : iCol < w)
    (hx0 : 0 ≤ x + iCol) (hx1 : x + iCol ≤ 127) (hrow : 8 * a < h) :
    ((k + a ≤ 7) →
      drawBitmap zeroBuf x ((8 * k : Nat) : Int) bm w h 1
          ((((k : Int) + a) * 128 + x + iCol).toNat)
        = bm (a * w + iCol)) ∧
    ((k + a + 1 ≤ 7) →
      (drawBitmap zeroBuf x ((8 * k + 3 : Nat) : Int) bm w h 1
          ((((k : Int) + a) * 128 + x + iCol).toNat) >>> 3) |||
      ((drawBitmap zeroBuf x ((8 * k + 3 : Nat) : Int) bm w h 1
          ((((k : Int) + a + 1) * 128 + x + iCol).toNat) <<< 5) % 256)
        = bm (a * w + iCol)) := by
  have hrows : a < h / 8 + (if h % 8 ≠ 0 then 1 else 0) := by
    by_cases hm : h % 8 = 0
    · simp only [hm, ne_eq, not_true_eq_false, if_neg, ite_false]
      omega
    · simp only [hm, ne_eq, not_false_eq_true, if_pos, ite_true]
      omega
  constructor
  · intro hband
    rw [show (8 * k : Nat) = 8 * k + 0 from rfl,
      drawBitmap_nonneg_unfold zeroBuf k 0 x bm w h 1 (by norm_num) (by omega),
      dbRowLoop_aligned_val bm x w k a iCol _ hrows (by omega) hcol hx0 hx1,
      Nat.shiftLeft_zero, Nat.mod_eq_of_lt (hbm _)]
  · intro hband
    rw [drawBitmap_nonneg_unfold zeroBuf k 3 x bm w h 1 (by norm_num) (by omega)]
    obtain ⟨u, hu8, hd1⟩ := dbRowLoop_off3_band1 bm x w k a iCol _ hbm hrows hband
      hcol hx0 hx1
    obtain ⟨v2, hd2⟩ := dbRowLoop_off3_band2 bm x w k a iCol _ hbm hrows hband
      hcol hx0 hx1
    rw [hd1, hd2, or3_recombine u (bm (a * w + iCol)) v2 hu8 (hbm _)]

/-- Witness for C6 with the 0xAA bitmap, `w = 2`, `h = 16`, at `x = 3`,
`k = 1`, band-row `a = 1`, column `iCol = 1`. -/
theorem C6_bitmap_blit_band_alignment_witness :
    drawBitmap zeroBuf 3 ((8 * 1 : Nat) : Int) (fun _ => 170) 2 16 1
        ((((1 : Nat) : Int) + (1 : Nat)) * 128 + 3 + (1 : Nat)).toNat = 170 ∧
    (drawBitmap zeroBuf 3 ((8 * 1 + 3 : Nat) : Int) (fun _ => 170) 2 16 1
        ((((1 : Nat) : Int) + (1 : Nat)) * 128 + 3 + (1 : Nat)).toNat >>> 3) |||
      ((drawBitmap zeroBuf 3 ((8 * 1 + 3 : Nat) : Int) (fun _ => 170) 2 16 1
        ((((1 : Nat) : Int) + (1 : Nat) + 1) * 128 + 3 + (1 : Nat)).toNat <<< 5) % 256)
        = 170 := by
  have h := C6_bitmap_blit_band_alignment (fun _ => 170) 2 16 1 1 1 3
    (fun i => by norm_num) (by norm_num) (by norm_num) (by norm_num) (by norm_num)
  exact ⟨h.1 (by norm_num), h.2 (by norm_num)⟩
